import Mathlib

/-!
Verification of the attendance/identity core of the Face Recognition
Attendance System (`webtopy.py`).

The development shallowly embeds the relevant Python functions and the
single-table user store.  Strings are modelled as `List Char`, Python
integers as `ℕ`/`ℤ`, and Python floats as exact rationals (`ℚ`).  The
SQLAlchemy table is modelled as a list of records in insertion order;
`Query.first()` becomes `List.find?`, and an ORM in-place mutation of a
fetched row becomes replacement of the first matching record.
-/

namespace FaceAtt

/-! ## Calendar model (Python `datetime.date` / `calendar.monthrange`) -/

/-- Gregorian leap-year rule, as used by `calendar.monthrange`. -/
def isLeap (y : ℕ) : Bool :=
  (y % 4 == 0 && y % 100 != 0) || (y % 400 == 0)

/-- Number of days in a month; embeds `calendar.monthrange(year, month)[1]`
for months 1..12. -/
def monthLength (y m : ℕ) : ℕ :=
  if m = 2 then (if isLeap y then 29 else 28)
  else if m = 4 ∨ m = 6 ∨ m = 9 ∨ m = 11 then 30
  else 31

/-- Days in the months of year `y` strictly before month `m`. -/
def daysBeforeMonth (y m : ℕ) : ℕ :=
  ((List.range (m - 1)).map (fun i => monthLength y (i + 1))).sum

/-- Proleptic-Gregorian ordinal of a date, as in `datetime.date.toordinal`:
0001-01-01 has ordinal 1. -/
def toOrdinal (y m d : ℕ) : ℕ :=
  365 * (y - 1) + (y - 1) / 4 - (y - 1) / 100 + (y - 1) / 400
    + daysBeforeMonth y m + d

/-- Embeds `datetime.date(y, m, d).weekday()`: Monday = 0 .. Sunday = 6.
0001-01-01 is a Monday in the proleptic Gregorian calendar. -/
def weekday (y m d : ℕ) : ℕ :=
  (toOrdinal y m d + 6) % 7

/-- Embeds `get_working_days_in_month`: loop over the days of the month
counting those whose weekday is < 5. -/
def get_working_days_in_month (year month : ℕ) : ℕ :=
  ((List.range' 1 (monthLength year month)).filter
    (fun day => weekday year month day < 5)).length

/-- Spec-side working-day count, following the spec's words: the number of
calendar dates of the month whose weekday is Monday (0) through Friday (4). -/
def workingDaysSpec (year month : ℕ) : ℕ :=
  ((Finset.Icc 1 (monthLength year month)).filter
    (fun day => weekday year month day < 5)).card

/-! ## Helper lemmas for C2 -/

theorem length_filter_range'_eq_card_filter_Icc (f : ℕ → Bool) :
    ∀ n : ℕ, ((List.range' 1 n).filter f).length
      = ((Finset.Icc 1 n).filter (fun d => f d = true)).card := by
  intro n
  induction n with
  | zero => simp
  | succ n ih =>
    rw [List.range'_concat, List.filter_append, List.length_append, ih]
    have h1n : 1 + 1 * n = n + 1 := by omega
    rw [h1n]
    have hins : Finset.Icc 1 (n + 1) = insert (n + 1) (Finset.Icc 1 n) := by
      rw [← Nat.Icc_insert_succ_right]
      omega
    rw [hins, Finset.filter_insert]
    by_cases h : f (n + 1) = true
    · rw [if_pos h, Finset.card_insert_of_not_mem (by simp)]
      simp [h]
    · rw [if_neg h]
      simp [h]

/-- C2: the Status Evaluator's working-day count equals, for every year and
month, the number of calendar dates of that month whose weekday is
Monday..Friday (proleptic Gregorian, no holiday awareness); for
year 2024, month 2 it returns 21. -/
theorem working_days_count :
    (∀ year month : ℕ,
      get_working_days_in_month year month = workingDaysSpec year month)
    ∧ get_working_days_in_month 2024 2 = 21 := by
  constructor
  · intro year month
    unfold get_working_days_in_month workingDaysSpec
    rw [length_filter_range'_eq_card_filter_Icc]
    simp only [decide_eq_true_eq]
  · decide

/-! ## Strings and decimal numerals

Python strings are modelled as `List Char`. -/

/-- The decimal digit character for `d < 10`. -/
def digitChar (d : ℕ) : Char := Char.ofNat (48 + d)

/-- Digit expansion worker: emits the decimal digits of `n`, most
significant first, for `n ≤ fuel` (structural fuel keeps every use
kernel-computable). -/
def decReprAux : ℕ → ℕ → List Char
  | 0, _ => []
  | fuel + 1, n =>
    if n = 0 then [] else decReprAux fuel (n / 10) ++ [digitChar (n % 10)]

/-- Decimal representation of a natural number, most significant digit
first; embeds Python `str(n)` for `n : ℕ`. -/
def decRepr (n : ℕ) : List Char :=
  if n = 0 then ['0'] else decReprAux n n

/-- Decimal representation of an integer; embeds Python `str(n)`. -/
def intRepr (n : ℤ) : List Char :=
  if n < 0 then '-' :: decRepr (-n).toNat else decRepr n.toNat

/-- Numeric value of a decimal digit character. -/
def charVal (c : Char) : ℕ := c.toNat - 48

/-- Whether all characters are ASCII decimal digits (and the list is
nonempty): the body accepted by Python `int()` after sign stripping. -/
def allDigits (l : List Char) : Bool :=
  decide (l ≠ []) && l.all (fun c => 48 ≤ c.toNat && c.toNat ≤ 57)

/-- Value of a nonempty decimal digit string, most significant first. -/
def digitsVal (l : List Char) : ℕ :=
  l.foldl (fun a c => 10 * a + charVal c) 0

/-- Python whitespace characters recognised by `str.strip` / `str.split`
for the ASCII range: space, tab, LF, CR, VT, FF. -/
def isPySpace (c : Char) : Bool :=
  c.toNat = 32 || c.toNat = 9 || c.toNat = 10 || c.toNat = 13
    || c.toNat = 11 || c.toNat = 12

/-- Embeds Python `str.strip()` (ASCII whitespace). -/
def pyStrip (l : List Char) : List Char :=
  ((l.dropWhile isPySpace).reverse.dropWhile isPySpace).reverse

/-- Embeds Python `int(s)` after whitespace stripping: optional sign,
then a nonempty run of decimal digits; anything else raises (here:
`none`).  (The underscore digit-grouping accepted by Python numerals is
not used by any stored or generated value and is not modelled.) -/
def pyIntParseBody : List Char → Option ℤ
  | [] => none
  | c :: rest =>
    if c = '+' then
      (if allDigits rest then some ((digitsVal rest : ℤ)) else none)
    else if c = '-' then
      (if allDigits rest then some (-(digitsVal rest : ℤ)) else none)
    else if allDigits (c :: rest) then some ((digitsVal (c :: rest) : ℤ))
    else none

/-- See the doc comment above: `int(s)` on the stripped string. -/
def pyIntParse (l : List Char) : Option ℤ :=
  pyIntParseBody (pyStrip l)

/-- Embeds Python `str.zfill(w)`: left-pad with `'0'` to width `w`,
keeping a leading sign in place. -/
def zfill (w : ℕ) (l : List Char) : List Char :=
  match l with
  | c :: rest =>
    if c = '-' ∨ c = '+' then c :: List.replicate (w - 1 - rest.length) '0' ++ rest
    else List.replicate (w - l.length) '0' ++ l
  | [] => List.replicate w '0'

/-- Embeds Python `s.split(sep)` for a one-character separator: splits at
every occurrence, keeping empty fragments (`"".split('-') == ['']`). -/
def splitOnChar (sep : Char) : List Char → List (List Char)
  | [] => [[]]
  | c :: cs =>
    if c = sep then [] :: splitOnChar sep cs
    else
      match splitOnChar sep cs with
      | [] => [[c]]
      | t :: ts => (c :: t) :: ts

/-- Embeds Python `str.lower()` on the Basic Latin and Latin-1 ranges
(the ranges over which the rest of the pipeline is modelled). -/
def pyLower (c : Char) : Char :=
  if 'A' ≤ c ∧ c ≤ 'Z' then Char.ofNat (c.toNat + 32)
  else if 0xC0 ≤ c.toNat ∧ c.toNat ≤ 0xDE ∧ c.toNat ≠ 0xD7 then
    Char.ofNat (c.toNat + 32)
  else c

/-- Lowercase an entire string, as `str.lower()`. -/
def lowerL (l : List Char) : List Char := l.map pyLower

/-- Embeds `unicodedata.normalize('NFD', s).encode('ascii', 'ignore')`
applied characterwise to an already lowercased string: ASCII characters
pass through; the precomposed Latin-1 lowercase letters decompose to
their ASCII base letter; the remaining Latin-1 characters (æ ð ø þ ß ÷ …)
have no ASCII characters in their NFD form and are dropped, as are the
characters above U+00FF that this development does not model. -/
def nfdAscii (c : Char) : List Char :=
  let n := c.toNat
  if n ≤ 0x7F then [c]
  else if 0xE0 ≤ n ∧ n ≤ 0xE5 then ['a']
  else if n = 0xE7 then ['c']
  else if 0xE8 ≤ n ∧ n ≤ 0xEB then ['e']
  else if 0xEC ≤ n ∧ n ≤ 0xEF then ['i']
  else if n = 0xF1 then ['n']
  else if 0xF2 ≤ n ∧ n ≤ 0xF6 then ['o']
  else if 0xF9 ≤ n ∧ n ≤ 0xFC then ['u']
  else if n = 0xFD ∨ n = 0xFF then ['y']
  else []

/-- Embeds the normalisation in `generate_email`:
`name.strip().lower()`, NFD + ASCII-ignore, then `re.sub(r'[^a-z\s]', '')`. -/
def normalizeName (name : List Char) : List Char :=
  ((((pyStrip name).map pyLower).flatMap nfdAscii).filter
    (fun c => ('a' ≤ c && c ≤ 'z') || isPySpace c))

/-- Worker for `pyWords`: accumulates the current word (reversed). -/
def pyWordsAux : List Char → List Char → List (List Char)
  | [], acc => if acc = [] then [] else [acc.reverse]
  | c :: cs, acc =>
    if isPySpace c then
      if acc = [] then pyWordsAux cs []
      else acc.reverse :: pyWordsAux cs []
    else pyWordsAux cs (c :: acc)

/-- Embeds Python `str.split()` with no argument: split on whitespace
runs, discarding empty fragments. -/
def pyWords (l : List Char) : List (List Char) := pyWordsAux l []

/-! ## Rounding and the attendance percentage

Python floats are modelled as exact rationals; `round(x, 1)` and the
`:.1f` format both round to the nearest tenth, ties to even. -/

/-- Round to the nearest integer, ties to even (Python's rounding mode). -/
def roundHalfEven (x : ℚ) : ℤ :=
  if x - ⌊x⌋ < 1/2 then ⌊x⌋
  else if (1/2 : ℚ) < x - ⌊x⌋ then ⌊x⌋ + 1
  else if ⌊x⌋ % 2 = 0 then ⌊x⌋ else ⌊x⌋ + 1

/-- Embeds Python `round(x, 1)`. -/
def pyRound1 (x : ℚ) : ℚ := (roundHalfEven (10 * x) : ℚ) / 10

/-- Attendance percentage as the spec words it:
`max(0, (working_days - leaves_taken) / working_days * 100)` when
`working_days > 0`, else defined as 100. -/
def specPercent (workingDays leaves : ℕ) : ℚ :=
  if 0 < workingDays then
    max 0 (((workingDays : ℚ) - leaves) / workingDays * 100)
  else 100

/-- Embeds the f-string format `f"{x:.1f}"` (for the nonnegative values
produced by the percentage computation; a sign branch is kept for
totality). -/
def fmt1 (x : ℚ) : List Char :=
  let n := roundHalfEven (10 * x)
  if n < 0 then
    '-' :: (decRepr ((-n).toNat / 10) ++ '.' :: decRepr ((-n).toNat % 10))
  else decRepr (n.toNat / 10) ++ '.' :: decRepr (n.toNat % 10)

/-! ## Email generation (`generate_email`) -/

/-- The fixed mail domain used by `generate_email`. -/
def emailDomain : List Char := "@company.com".data

/-- The `k`-th candidate address tried by `generate_email`'s collision
loop: `k = 0` is the base address, `k ≥ 1` appends the counter `k`
before the domain.  Single-token names use a single-part local part,
otherwise the first and last tokens joined by a dot. -/
def emailCandidate (parts : List (List Char)) (k : ℕ) : List Char :=
  let suffix := if k = 0 then [] else decRepr k
  match parts with
  | [] => []
  | [p] => p ++ suffix ++ emailDomain
  | p :: rest => p ++ '.' :: (rest.getLastD [] ++ suffix ++ emailDomain)

/-- Embeds the `while email_candidate.lower() in existing_emails` loop of
`generate_email`.  The loop always terminates because the candidates are
pairwise distinct and the stored set is finite; here it is run with
`stored.length + 1` units of fuel, enough to reach a free candidate. -/
def emailLoop (stored : List (List Char)) (parts : List (List Char)) :
    ℕ → ℕ → List Char
  | 0, k => emailCandidate parts k
  | fuel + 1, k =>
    if lowerL (emailCandidate parts k) ∈ stored.map lowerL then
      emailLoop stored parts fuel (k + 1)
    else emailCandidate parts k

/-- Embeds `generate_email(name)` against the stored emails: returns `''`
for an empty name or a name normalising to no tokens, otherwise the first
candidate address that does not collide case-insensitively with a stored
email. -/
def generate_email (name : List Char) (storedEmails : List (List Char)) :
    List Char :=
  if name = [] then []
  else
    match pyWords (normalizeName name) with
    | [] => []
    | p :: ps => emailLoop storedEmails (p :: ps) (storedEmails.length + 1) 0

/-! ## Registration numbers (`generate_next_reg_no`) -/

/-- The fixed organisation code `'XYZ'`. -/
def orgCode : List Char := ['X', 'Y', 'Z']

/-- The pattern head `f"{year}-XYZ-"` used both to build numbers and as
the SQL `LIKE` pattern `f"{year}-{code}-%"`. -/
def regHead (year : ℕ) : List Char := decRepr year ++ '-' :: orgCode ++ ['-']

/-- Whether a stored number matches `LIKE f"{year}-XYZ-%"`. -/
def matchesYearCode (year : ℕ) (r : List Char) : Bool :=
  decide (r.take (regHead year).length = regHead year)

/-- Embeds `int(u.reg_no.split('-')[2])`: `none` when the index or the
`int` conversion raises (the `except: continue` path). -/
def parseSuffix (r : List Char) : Option ℤ :=
  match (splitOnChar '-' r).get? 2 with
  | some part => pyIntParse part
  | none => none

/-- One iteration of the scan loop of `generate_next_reg_no`: keep the
parsed suffix when it beats the running maximum, skip a failed parse
(the `except: continue` path). -/
def suffStep (m : ℤ) (r : List Char) : ℤ :=
  match parseSuffix r with
  | some k => if k > m then k else m
  | none => m

/-- Embeds the scan loop of `generate_next_reg_no`: running maximum of
the parsed suffixes of the numbers matching this year's pattern, skipping
entries that fail to parse, starting from 0. -/
def maxSuffix (year : ℕ) (regNos : List (List Char)) : ℤ :=
  (regNos.filter (matchesYearCode year)).foldl suffStep 0

/-- Embeds `generate_next_reg_no`: the year/code head followed by the
incremented maximal suffix, zero-padded to four digits. -/
def generate_next_reg_no (year : ℕ) (regNos : List (List Char)) : List Char :=
  regHead year ++ zfill 4 (intRepr (maxSuffix year regNos + 1))

/-- Spec-side maximum: the maximum (0 when none parse) of the multiset of
successfully parsed suffixes of the entries matching the year and code. -/
def maxParsedSpec (year : ℕ) (regNos : List (List Char)) : ℤ :=
  ((regNos.filter (matchesYearCode year)).filterMap parseSuffix).foldr max 0

/-- The reg-no column across a run of `n` successful registrations in the
same year: each registration generates the next number from the current
column and commits its row. -/
def regSeq (year : ℕ) (start : List (List Char)) : ℕ → List (List Char)
  | 0 => start
  | n + 1 => regSeq year start n ++ [generate_next_reg_no year (regSeq year start n)]

/-- The number generated by the `(n+1)`-st registration of such a run. -/
def genNo (year : ℕ) (start : List (List Char)) (n : ℕ) : List Char :=
  generate_next_reg_no year (regSeq year start n)

/-! ## The user store and the four mutating endpoints -/

/-- One row of the `User` table. -/
structure UserRec where
  reg_no : List Char
  name : List Char
  dob : ℕ × ℕ × ℕ
  gender : List Char
  email : List Char
  attendance_count : ℕ
  leaves_taken : ℕ
  last_leave_month : Option (List Char)
  messages : List Char
  face_image : List Char
deriving DecidableEq

/-- The table, in insertion (primary-key) order. -/
abbrev Store := List UserRec

/-- Replace the first record satisfying `p` — the ORM's in-place update of
the row returned by `.first()`. -/
def updateFirst (p : UserRec → Bool) (f : UserRec → UserRec) : Store → Store
  | [] => []
  | u :: us => if p u then f u :: us else u :: updateFirst p f us

/-- Remove the first record satisfying `p` — `db.session.delete` of the
row returned by `.first()`. -/
def deleteFirst (p : UserRec → Bool) : Store → Store
  | [] => []
  | u :: us => if p u then us else u :: deleteFirst p us

/-- Modelled from `datetime.strptime(dob_str, '%Y-%m-%d').date()`: three
dash-separated decimal fields forming a valid proleptic-Gregorian date. -/
def parseDate (l : List Char) : Option (ℕ × ℕ × ℕ) :=
  match splitOnChar '-' l with
  | [ys, ms, ds] =>
    if allDigits ys ∧ allDigits ms ∧ allDigits ds then
      let y := digitsVal ys; let m := digitsVal ms; let d := digitsVal ds
      if 1 ≤ y ∧ y ≤ 9999 ∧ 1 ≤ m ∧ m ≤ 12 ∧ 1 ≤ d ∧ d ≤ monthLength y m then
        some (y, m, d)
      else none
    else none
  | _ => none

/-- The successful-registration response `{reg_no, email, name}`. -/
structure RegResponse where
  reg_no : List Char
  email : List Char
  name : List Char
deriving DecidableEq

/-- Embeds the `/register` endpoint: validate, derive email and
registration number, insert the new row with zeroed counters. -/
def register (year : ℕ) (nameIn dobIn genderIn faceIn : List Char)
    (s : Store) : Except (List Char) RegResponse × Store :=
  let name := pyStrip nameIn
  let dob_str := pyStrip dobIn
  let gender := pyStrip genderIn
  let face := pyStrip faceIn
  if name = [] ∨ dob_str = [] ∨ gender = [] ∨ face = [] then
    (Except.error "Missing required fields".data, s)
  else if (s.find? (fun u => decide (lowerL u.name = lowerL name))).isSome then
    (Except.error "already registered name".data, s)
  else
    match parseDate dob_str with
    | none => (Except.error "Invalid date of birth format.".data, s)
    | some dob =>
      let email := generate_email name (s.map UserRec.email)
      if (s.find? (fun u => decide (lowerL u.email = lowerL email))).isSome then
        (Except.error "already registered email".data, s)
      else
        let reg_no := generate_next_reg_no year (s.map UserRec.reg_no)
        (Except.ok ⟨reg_no, email, name⟩,
         s ++ [{ reg_no := reg_no, name := name, dob := dob, gender := gender,
                 email := email, attendance_count := 0, leaves_taken := 0,
                 last_leave_month := none, messages := [], face_image := face }])

/-- The `/recognize` response: the `recognized` flag and the message. -/
structure RecogResponse where
  recognized : Bool
  message : List Char
deriving DecidableEq

/-- The record `u` with `attendance_count` incremented by one and every
other field
unchanged. -/
def incCount (u : UserRec) : UserRec :=
  { u with attendance_count := u.attendance_count + 1 }

/-- Embeds the `/recognize` endpoint.  The `random.random() < 0.5` draw is
the boolean `coin`; `random.choice(users)` is the index `pick % length`.
With no users: reported failure, no mutation.  Recognised: one user's
count is incremented and committed.  Otherwise: no mutation. -/
def recognize (coin : Bool) (pick : ℕ) (s : Store) : RecogResponse × Store :=
  match s with
  | [] => (⟨false, "No users registered yet.".data⟩, [])
  | u0 :: us =>
    if coin then
      let l := u0 :: us
      let i := pick % l.length
      let u := l.getD i u0
      (⟨true, "Recognized. Attendance incremented.".data⟩, l.set i (incCount u))
    else (⟨false, "Face not recognized. Please register.".data⟩, u0 :: us)

/-! ### `/status` -/

/-- The month tag `f"{year}-{month}"` (no zero padding). -/
def monthTag (y m : ℕ) : List Char := decRepr y ++ '-' :: decRepr m

/-- Embeds the monthly-rollover block of `check_status`: if the stored tag
differs from the current one, reset `leaves_taken` and stamp the tag. -/
def rollover (tag : List Char) (u : UserRec) : UserRec :=
  if u.last_leave_month = some tag then u
  else { u with leaves_taken := 0, last_leave_month := some tag }

/-- The alert appended when more than 2 leaves were taken. -/
def msgLeaves (leaves : ℕ) : List Char :=
  "Alert: You have taken more than 2 leaves (".data ++ decRepr leaves
    ++ ") this month.".data

/-- The warning appended when the percentage is below 90. -/
def msgBelow (percent : ℚ) : List Char :=
  "Warning: Your attendance is below 90% (".data ++ fmt1 percent ++ "%).".data

/-- The congratulatory message for 100% attendance. -/
def msgCongrats : List Char :=
  "Great job! You have 100% attendance this month.".data

/-- The fallback message when no other message fired. -/
def msgOk : List Char :=
  "Your attendance and leave status are within acceptable limits.".data

/-- Embeds the message block of `check_status`: each of the three
conditions is tested independently and appends its message; if none
fired, the single fallback message is produced. -/
def statusMessages (leaves : ℕ) (percent : ℚ) : List (List Char) :=
  let ms :=
    (if 2 < leaves then [msgLeaves leaves] else [])
      ++ (if percent < 90 then [msgBelow percent] else [])
      ++ (if percent = 100 then [msgCongrats] else [])
  if ms = [] then [msgOk] else ms

/-- Embeds `' | '.join(messages)`, as persisted onto `user.messages`. -/
def joinBar (ms : List (List Char)) : List Char :=
  List.intercalate " | ".data ms

/-- The `/status` success response. -/
structure StatusResponse where
  name : List Char
  attendance_count : ℕ
  leaves_taken : ℕ
  attendance_percent : ℚ
  messages : List (List Char)
deriving DecidableEq

/-- Embeds the `/status` endpoint (`check_status`), with "now" passed in
as `y`/`m`: look the user up by email, roll the leave counter over on a
month change, compute working days and the percentage, build and persist
the advisory messages, and answer with the rounded percentage. -/
def check_status (y m : ℕ) (emailIn : List Char) (s : Store) :
    Except (List Char) StatusResponse × Store :=
  let email := lowerL (pyStrip emailIn)
  if email = [] then (Except.error "Please enter an email address.".data, s)
  else
    match s.find? (fun u => decide (lowerL u.email = email)) with
    | none => (Except.error "No user found with this email.".data, s)
    | some u =>
      let wd := get_working_days_in_month y m
      let tag := monthTag y m
      let u1 := rollover tag u
      let leaves := u1.leaves_taken
      let percent : ℚ :=
        if 0 < wd then max 0 (((wd : ℚ) - leaves) / wd * 100) else 100
      let msgs := statusMessages leaves percent
      let u2 := { u1 with messages := joinBar msgs }
      (Except.ok ⟨u.name, u.attendance_count, leaves, pyRound1 percent, msgs⟩,
       updateFirst (fun v => decide (lowerL v.email = email)) (fun _ => u2) s)

/-- Embeds `GET|DELETE /admin/user/<reg_no>` with method DELETE: 404 when
absent, otherwise remove the row. -/
def deleteUser (reg : List Char) (s : Store) : Except (List Char) Unit × Store :=
  match s.find? (fun u => decide (u.reg_no = reg)) with
  | none => (Except.error "User not found".data, s)
  | some _ => (Except.ok (), deleteFirst (fun u => decide (u.reg_no = reg)) s)

/-! ### The public operations as a transition system -/

/-- One invocation of a mutating endpoint, with the request payload and
the nondeterministic inputs (current date, coin, choice) as parameters. -/
inductive Op where
  | register (year : ℕ) (name dob gender face : List Char)
  | recognize (coin : Bool) (pick : ℕ)
  | status (y m : ℕ) (email : List Char)
  | delete (reg : List Char)

/-- The store after an operation. -/
def applyOp : Op → Store → Store
  | .register y n d g f, s => (register y n d g f s).2
  | .recognize c p, s => (recognize c p s).2
  | .status y m e, s => (check_status y m e s).2
  | .delete r, s => (deleteUser r s).2

/-- The store reached from the empty table by a sequence of operations. -/
def runOps (ops : List Op) : Store :=
  ops.foldl (fun s op => applyOp op s) []

/-- Observer: the attendance count of the first record with the given
registration number, if any. -/
def countOf (r : List Char) : Store → Option ℕ
  | [] => none
  | u :: us => if u.reg_no = r then some u.attendance_count else countOf r us

/-! ## Evaluating a successful status check -/

/-- A successful `check_status` call, written out: the response and the
updated store in terms of `rollover`, `specPercent` and `statusMessages`. -/
theorem check_status_found (y m : ℕ) (emailIn : List Char) (s : Store)
    (u : UserRec)
    (hne : lowerL (pyStrip emailIn) ≠ [])
    (hfind : s.find? (fun v => decide (lowerL v.email = lowerL (pyStrip emailIn)))
      = some u) :
    check_status y m emailIn s =
      (Except.ok ⟨u.name, u.attendance_count,
         (rollover (monthTag y m) u).leaves_taken,
         pyRound1 (specPercent (get_working_days_in_month y m)
           (rollover (monthTag y m) u).leaves_taken),
         statusMessages (rollover (monthTag y m) u).leaves_taken
           (specPercent (get_working_days_in_month y m)
             (rollover (monthTag y m) u).leaves_taken)⟩,
       updateFirst (fun v => decide (lowerL v.email = lowerL (pyStrip emailIn)))
         (fun _ => { rollover (monthTag y m) u with
             messages := joinBar (statusMessages
               (rollover (monthTag y m) u).leaves_taken
               (specPercent (get_working_days_in_month y m)
                 (rollover (monthTag y m) u).leaves_taken)) }) s) := by
  unfold check_status
  rw [if_neg hne, hfind]
  rfl

/-- C1: every successful status check answers the attendance percentage
`max 0 ((working_days - leaves) / working_days * 100)` (100 when
`working_days = 0`), rounded to one decimal place; 21 working days with
3 leaves gives 85.7. -/
theorem status_percentage_formula :
    (∀ (y m : ℕ) (emailIn : List Char) (s : Store)
       (resp : StatusResponse) (s' : Store),
       check_status y m emailIn s = (Except.ok resp, s') →
       resp.attendance_percent
         = pyRound1 (specPercent (get_working_days_in_month y m)
             resp.leaves_taken))
    ∧ pyRound1 (specPercent 21 3) = 857 / 10 := by
  constructor
  · intro y m emailIn s resp s' h
    by_cases hne : lowerL (pyStrip emailIn) = []
    · unfold check_status at h
      rw [if_pos hne] at h
      simp at h
    · cases hfind : s.find?
        (fun v => decide (lowerL v.email = lowerL (pyStrip emailIn))) with
      | none =>
        unfold check_status at h
        rw [if_neg hne, hfind] at h
        simp at h
      | some u =>
        rw [check_status_found y m emailIn s u hne hfind] at h
        rw [Prod.mk.injEq] at h
        obtain ⟨h1, h2⟩ := h
        rw [Except.ok.injEq] at h1
        subst h1
        rfl
  · norm_num [specPercent, pyRound1, roundHalfEven]

/-- A concrete user for the status-check witnesses: 3 leaves already
rolled over into February 2024. -/
def witUser : UserRec :=
  { reg_no := "2024-XYZ-0001".data, name := "Bob".data, dob := (2000, 1, 5),
    gender := "M".data, email := "bob@x.com".data, attendance_count := 4,
    leaves_taken := 3, last_leave_month := some (monthTag 2024 2),
    messages := [], face_image := "img".data }

/-- The response of `check_status 2024 2 "bob@x.com" [witUser]`. -/
def witResp : StatusResponse :=
  ⟨witUser.name, witUser.attendance_count,
   (rollover (monthTag 2024 2) witUser).leaves_taken,
   pyRound1 (specPercent (get_working_days_in_month 2024 2)
     (rollover (monthTag 2024 2) witUser).leaves_taken),
   statusMessages (rollover (monthTag 2024 2) witUser).leaves_taken
     (specPercent (get_working_days_in_month 2024 2)
       (rollover (monthTag 2024 2) witUser).leaves_taken)⟩

/-- The store left behind by that call. -/
def witStore : Store :=
  updateFirst
    (fun v => decide (lowerL v.email = lowerL (pyStrip "bob@x.com".data)))
    (fun _ => { rollover (monthTag 2024 2) witUser with
        messages := joinBar (statusMessages
          (rollover (monthTag 2024 2) witUser).leaves_taken
          (specPercent (get_working_days_in_month 2024 2)
            (rollover (monthTag 2024 2) witUser).leaves_taken)) }) [witUser]

/-- The status check on `witUser` does succeed with that response. -/
theorem witness_status_run :
    check_status 2024 2 "bob@x.com".data [witUser]
      = (Except.ok witResp, witStore) :=
  check_status_found 2024 2 "bob@x.com".data [witUser] witUser
    (by decide) (by decide)

/-- Witness for C1 at a concrete successful call. -/
theorem status_percentage_formula_witness :
    witResp.attendance_percent
      = pyRound1 (specPercent (get_working_days_in_month 2024 2)
          witResp.leaves_taken) :=
  status_percentage_formula.1 2024 2 "bob@x.com".data [witUser]
    witResp witStore witness_status_run

/-! ## C3: the advisory messages -/

/-- If some record matches, replacing the first match with `v` puts `v`
in the store. -/
theorem mem_updateFirst_const (p : UserRec → Bool) (v : UserRec) :
    ∀ (s : Store) (u : UserRec), s.find? p = some u →
      v ∈ updateFirst p (fun _ => v) s := by
  intro s
  induction s with
  | nil => intro u h; simp at h
  | cons x xs ih =>
    intro u h
    by_cases hp : p x
    · unfold updateFirst
      rw [if_pos hp]
      exact List.mem_cons_self _ _
    · rw [List.find?_cons_of_neg _ hp] at h
      unfold updateFirst
      rw [if_neg hp]
      exact List.mem_cons_of_mem _ (ih u h)

theorem msgLeaves_ne_msgBelow (l : ℕ) (p : ℚ) : msgLeaves l ≠ msgBelow p := by
  intro h
  have h1 : (msgLeaves l).head? = some 'A' := rfl
  have h2 : (msgBelow p).head? = some 'W' := rfl
  rw [h] at h1
  rw [h1] at h2
  exact absurd h2 (by decide)

theorem msgLeaves_ne_msgCongrats (l : ℕ) : msgLeaves l ≠ msgCongrats := by
  intro h
  have h1 : (msgLeaves l).head? = some 'A' := rfl
  rw [h] at h1
  exact absurd h1 (by decide)

theorem msgLeaves_ne_msgOk (l : ℕ) : msgLeaves l ≠ msgOk := by
  intro h
  have h1 : (msgLeaves l).head? = some 'A' := rfl
  rw [h] at h1
  exact absurd h1 (by decide)

theorem msgBelow_ne_msgCongrats (p : ℚ) : msgBelow p ≠ msgCongrats := by
  intro h
  have h1 : (msgBelow p).head? = some 'W' := rfl
  rw [h] at h1
  exact absurd h1 (by decide)

theorem msgBelow_ne_msgOk (p : ℚ) : msgBelow p ≠ msgOk := by
  intro h
  have h1 : (msgBelow p).head? = some 'W' := rfl
  rw [h] at h1
  exact absurd h1 (by decide)

theorem msgCongrats_ne_msgOk : msgCongrats ≠ msgOk := by decide

theorem msgBelow_ne_msgLeaves (p : ℚ) (l : ℕ) : msgBelow p ≠ msgLeaves l :=
  fun h => msgLeaves_ne_msgBelow l p h.symm

theorem msgCongrats_ne_msgLeaves (l : ℕ) : msgCongrats ≠ msgLeaves l :=
  fun h => msgLeaves_ne_msgCongrats l h.symm

theorem msgOk_ne_msgLeaves (l : ℕ) : msgOk ≠ msgLeaves l :=
  fun h => msgLeaves_ne_msgOk l h.symm

theorem msgCongrats_ne_msgBelow (p : ℚ) : msgCongrats ≠ msgBelow p :=
  fun h => msgBelow_ne_msgCongrats p h.symm

theorem msgOk_ne_msgBelow (p : ℚ) : msgOk ≠ msgBelow p :=
  fun h => msgBelow_ne_msgOk p h.symm

theorem msgOk_ne_msgCongrats : msgOk ≠ msgCongrats :=
  fun h => msgCongrats_ne_msgOk h.symm

/-- C3: each advisory condition is evaluated independently, in order
(leaves alert, below-90 warning, congratulation), every applicable
message is included, the fallback message appears exactly when none
fired, and a successful status check persists the joined messages onto
the user's record. -/
theorem advisory_messages :
    (∀ (l : ℕ) (p : ℚ),
      (msgLeaves l ∈ statusMessages l p ↔ 2 < l)
      ∧ (msgBelow p ∈ statusMessages l p ↔ p < 90)
      ∧ (msgCongrats ∈ statusMessages l p ↔ p = 100)
      ∧ (¬ 2 < l → ¬ p < 90 → p ≠ 100 → statusMessages l p = [msgOk])
      ∧ (2 < l → (statusMessages l p).head? = some (msgLeaves l)))
    ∧ (∀ (y m : ℕ) (emailIn : List Char) (s : Store)
        (resp : StatusResponse) (s' : Store),
        check_status y m emailIn s = (Except.ok resp, s') →
        resp.messages
          = statusMessages resp.leaves_taken
              (specPercent (get_working_days_in_month y m) resp.leaves_taken)
          ∧ ∃ u' ∈ s', u'.messages = joinBar resp.messages) := by
  constructor
  · intro l p
    refine ⟨?_, ?_, ?_, ?_, ?_⟩ <;>
      [skip; skip; skip; (intro h1 h2 h3); (intro h1)] <;>
      by_cases hl : 2 < l <;> by_cases h90 : p < 90 <;> by_cases h100 : p = 100 <;>
      simp_all [statusMessages, msgLeaves_ne_msgBelow, msgLeaves_ne_msgCongrats,
        msgLeaves_ne_msgOk, msgBelow_ne_msgCongrats, msgBelow_ne_msgOk,
        msgCongrats_ne_msgOk, msgBelow_ne_msgLeaves, msgCongrats_ne_msgLeaves,
        msgOk_ne_msgLeaves, msgCongrats_ne_msgBelow, msgOk_ne_msgBelow,
        msgOk_ne_msgCongrats]
  · intro y m emailIn s resp s' h
    by_cases hne : lowerL (pyStrip emailIn) = []
    · unfold check_status at h
      rw [if_pos hne] at h
      simp at h
    · cases hfind : s.find?
        (fun v => decide (lowerL v.email = lowerL (pyStrip emailIn))) with
      | none =>
        unfold check_status at h
        rw [if_neg hne, hfind] at h
        simp at h
      | some u =>
        rw [check_status_found y m emailIn s u hne hfind] at h
        rw [Prod.mk.injEq] at h
        obtain ⟨h1, h2⟩ := h
        rw [Except.ok.injEq] at h1
        subst h1
        subst h2
        exact ⟨rfl, ⟨_, mem_updateFirst_const _ _ _ _ hfind, rfl⟩⟩

/-- Witness for C3: the none-fired case produces exactly the fallback
message, and the concrete run of `check_status` persists its joined
messages. -/
theorem advisory_messages_witness :
    statusMessages 0 95 = [msgOk]
    ∧ (witResp.messages
        = statusMessages witResp.leaves_taken
            (specPercent (get_working_days_in_month 2024 2)
              witResp.leaves_taken)
       ∧ ∃ u' ∈ witStore, u'.messages = joinBar witResp.messages) :=
  ⟨(advisory_messages.1 0 95).2.2.2.1 (by decide) (by norm_num) (by norm_num),
   advisory_messages.2 2024 2 "bob@x.com".data [witUser] witResp witStore
     witness_status_run⟩

/-! ## C4: the monthly rollover -/

/-- C4: on a successful status check, when the stored month tag differs
from the current one the leave counter is reset to 0 and the tag stamped,
and the reset state is what is persisted; when the tags agree the leave
counter is read unchanged. -/
theorem monthly_rollover :
    ∀ (y m : ℕ) (emailIn : List Char) (s : Store) (u : UserRec)
      (resp : StatusResponse) (s' : Store),
      s.find? (fun v => decide (lowerL v.email = lowerL (pyStrip emailIn)))
        = some u →
      check_status y m emailIn s = (Except.ok resp, s') →
      (u.last_leave_month ≠ some (monthTag y m) →
        resp.leaves_taken = 0
        ∧ ∃ u' ∈ s', u'.leaves_taken = 0
            ∧ u'.last_leave_month = some (monthTag y m))
      ∧ (u.last_leave_month = some (monthTag y m) →
          resp.leaves_taken = u.leaves_taken) := by
  intro y m emailIn s u resp s' hfind h
  by_cases hne : lowerL (pyStrip emailIn) = []
  · unfold check_status at h
    rw [if_pos hne] at h
    simp at h
  · rw [check_status_found y m emailIn s u hne hfind] at h
    rw [Prod.mk.injEq] at h
    obtain ⟨h1, h2⟩ := h
    rw [Except.ok.injEq] at h1
    subst h1
    subst h2
    constructor
    · intro hdiff
      constructor
      · show (rollover (monthTag y m) u).leaves_taken = 0
        unfold rollover
        rw [if_neg hdiff]
      · refine ⟨_, mem_updateFirst_const _ _ _ _ hfind, ?_, ?_⟩
        · show (rollover (monthTag y m) u).leaves_taken = 0
          unfold rollover
          rw [if_neg hdiff]
        · show (rollover (monthTag y m) u).last_leave_month = some (monthTag y m)
          unfold rollover
          rw [if_neg hdiff]
    · intro heq
      show (rollover (monthTag y m) u).leaves_taken = u.leaves_taken
      unfold rollover
      rw [if_pos heq]

/-- A user whose stored tag is the previous month, for the C4 witness. -/
def witUserStale : UserRec :=
  { witUser with
    email := "stale@x.com".data,
    last_leave_month := some (monthTag 2024 1) }

/-- Witness for C4: a January tag seen in February is reset to 0 and the
new tag persisted. -/
theorem monthly_rollover_witness :
    (check_status 2024 2 "stale@x.com".data [witUserStale]).1
        = Except.ok ⟨witUserStale.name, witUserStale.attendance_count,
            (rollover (monthTag 2024 2) witUserStale).leaves_taken,
            pyRound1 (specPercent (get_working_days_in_month 2024 2)
              (rollover (monthTag 2024 2) witUserStale).leaves_taken),
            statusMessages (rollover (monthTag 2024 2) witUserStale).leaves_taken
              (specPercent (get_working_days_in_month 2024 2)
                (rollover (monthTag 2024 2) witUserStale).leaves_taken)⟩
    ∧ (rollover (monthTag 2024 2) witUserStale).leaves_taken = 0 := by
  have hfind : List.find?
      (fun v => decide (lowerL v.email = lowerL (pyStrip "stale@x.com".data)))
      [witUserStale] = some witUserStale := by decide
  have h := check_status_found 2024 2 "stale@x.com".data [witUserStale]
    witUserStale (by decide) hfind
  have hm := monthly_rollover 2024 2 "stale@x.com".data [witUserStale]
    witUserStale _ _ hfind h
  exact ⟨by rw [h], (hm.1 (by decide)).1⟩

/-! ## C5: email derivation -/

/-- The collision loop returns the first free candidate: if candidate `k`
is free, all earlier candidates from `start` on collide, and there is
enough fuel to reach `k`, the loop answers candidate `k`. -/
theorem emailLoop_eq (stored parts : List (List Char)) :
    ∀ (fuel start k : ℕ), start ≤ k → k ≤ start + fuel →
      lowerL (emailCandidate parts k) ∉ stored.map lowerL →
      (∀ j, start ≤ j → j < k →
        lowerL (emailCandidate parts j) ∈ stored.map lowerL) →
      emailLoop stored parts fuel start = emailCandidate parts k := by
  intro fuel
  induction fuel with
  | zero =>
    intro start k h1 h2 hfree hcoll
    have hk : k = start := by omega
    subst hk
    rfl
  | succ n ih =>
    intro start k h1 h2 hfree hcoll
    unfold emailLoop
    by_cases hc : lowerL (emailCandidate parts start) ∈ stored.map lowerL
    · rw [if_pos hc]
      have hks : start ≠ k := by
        intro e
        rw [e] at hc
        exact hfree hc
      exact ih (start + 1) k (by omega) (by omega) hfree
        (fun j hj1 hj2 => hcoll j (by omega) hj2)
    · rw [if_neg hc]
      have hk : k = start := by
        by_contra hne
        exact hc (hcoll start le_rfl (by omega))
      rw [hk]

/-- C5: the generated email is the first candidate — base address built
from the first and last normalised tokens (single token: single-part
local part), then integer suffixes 1, 2, … — that does not collide
case-insensitively with a stored email; with the spec's examples. -/
theorem email_generation :
    (∀ (name : List Char) (stored : List (List Char)) (k : ℕ),
      pyWords (normalizeName name) ≠ [] →
      k ≤ stored.length →
      lowerL (emailCandidate (pyWords (normalizeName name)) k)
        ∉ stored.map lowerL →
      (∀ j < k, lowerL (emailCandidate (pyWords (normalizeName name)) j)
        ∈ stored.map lowerL) →
      generate_email name stored
        = emailCandidate (pyWords (normalizeName name)) k)
    ∧ generate_email "Madonna".data [] = "madonna@company.com".data
    ∧ generate_email "Madonna".data ["madonna@company.com".data]
        = "madonna1@company.com".data
    ∧ generate_email "Ada Lovelace".data [] = "ada.lovelace@company.com".data := by
  refine ⟨?_, by decide, by decide, by decide⟩
  intro name stored k hw hk hfree hcoll
  by_cases hnm : name = []
  · subst hnm
    exact absurd rfl hw
  · unfold generate_email
    rw [if_neg hnm]
    cases hp : pyWords (normalizeName name) with
    | nil => exact absurd hp hw
    | cons p ps =>
      rw [hp] at hfree hcoll
      exact emailLoop_eq stored (p :: ps) (stored.length + 1) 0 k
        (Nat.zero_le k) (by omega) hfree
        (fun j _ hj2 => hcoll j hj2)

/-- Witness for C5: with `madonna@company.com` already stored, the loop
is driven to the suffixed candidate 1. -/
theorem email_generation_witness :
    generate_email "Madonna".data ["madonna@company.com".data]
      = emailCandidate (pyWords (normalizeName "Madonna".data)) 1 :=
  email_generation.1 "Madonna".data ["madonna@company.com".data] 1
    (by decide) (by decide) (by decide) (by decide)

/-! ## Decimal numerals: evaluation lemmas for C6/C7 -/

theorem charVal_digitChar (d : ℕ) (h : d < 10) : charVal (digitChar d) = d := by
  interval_cases d <;> decide

theorem digitChar_digit (d : ℕ) (h : d < 10) :
    48 ≤ (digitChar d).toNat ∧ (digitChar d).toNat ≤ 57 := by
  interval_cases d <;> decide

theorem decReprAux_zero (fuel : ℕ) : decReprAux fuel 0 = [] := by
  cases fuel <;> rfl

theorem decReprAux_digits :
    ∀ (fuel n : ℕ), n ≤ fuel →
      ∀ c ∈ decReprAux fuel n, 48 ≤ c.toNat ∧ c.toNat ≤ 57 := by
  intro fuel
  induction fuel with
  | zero => intro n _ c hc; simp [decReprAux] at hc
  | succ f ih =>
    intro n hn c hc
    unfold decReprAux at hc
    by_cases h0 : n = 0
    · rw [if_pos h0] at hc; simp at hc
    · rw [if_neg h0] at hc
      rcases List.mem_append.1 hc with h | h
      · exact ih (n / 10) (by omega) c h
      · have : c = digitChar (n % 10) := by simpa using h
        rw [this]
        exact digitChar_digit (n % 10) (Nat.mod_lt n (by omega))

theorem digitsVal_append_singleton (l : List Char) (c : Char) :
    digitsVal (l ++ [c]) = 10 * digitsVal l + charVal c := by
  unfold digitsVal
  rw [List.foldl_append]
  rfl

theorem decReprAux_val :
    ∀ (fuel n : ℕ), n ≤ fuel → digitsVal (decReprAux fuel n) = n := by
  intro fuel
  induction fuel with
  | zero => intro n hn; interval_cases n; rfl
  | succ f ih =>
    intro n hn
    unfold decReprAux
    by_cases h0 : n = 0
    · rw [if_pos h0, h0]; rfl
    · rw [if_neg h0, digitsVal_append_singleton, ih (n / 10) (by omega),
        charVal_digitChar (n % 10) (Nat.mod_lt n (by omega))]
      omega

theorem decRepr_digits (n : ℕ) :
    ∀ c ∈ decRepr n, 48 ≤ c.toNat ∧ c.toNat ≤ 57 := by
  intro c hc
  unfold decRepr at hc
  by_cases h0 : n = 0
  · rw [if_pos h0] at hc
    have : c = '0' := by simpa using hc
    rw [this]; decide
  · rw [if_neg h0] at hc
    exact decReprAux_digits n n le_rfl c hc

theorem decRepr_ne_nil (n : ℕ) : decRepr n ≠ [] := by
  unfold decRepr
  by_cases h0 : n = 0
  · rw [if_pos h0]; simp
  · rw [if_neg h0]
    cases n with
    | zero => exact absurd rfl h0
    | succ k =>
      unfold decReprAux
      rw [if_neg h0]
      simp

theorem digitsVal_decRepr (n : ℕ) : digitsVal (decRepr n) = n := by
  unfold decRepr
  by_cases h0 : n = 0
  · rw [if_pos h0, h0]; rfl
  · rw [if_neg h0]
    exact decReprAux_val n n le_rfl

theorem digit_not_space (c : Char) (h : 48 ≤ c.toNat ∧ c.toNat ≤ 57) :
    isPySpace c = false := by
  unfold isPySpace
  simp only [Bool.or_eq_false_iff, decide_eq_false_iff_not]
  omega

theorem pyStrip_of_digits (l : List Char)
    (h : ∀ c ∈ l, 48 ≤ c.toNat ∧ c.toNat ≤ 57) : pyStrip l = l := by
  have hdrop : ∀ (t : List Char), (∀ c ∈ t, 48 ≤ c.toNat ∧ c.toNat ≤ 57) →
      t.dropWhile isPySpace = t := by
    intro t ht
    cases t with
    | nil => rfl
    | cons c cs =>
      simp [List.dropWhile_cons,
        digit_not_space c (ht c (List.mem_cons_self _ _))]
  unfold pyStrip
  rw [hdrop l h, hdrop l.reverse (fun c hc => h c (List.mem_reverse.1 hc)),
    List.reverse_reverse]

theorem allDigits_of (l : List Char) (hne : l ≠ [])
    (h : ∀ c ∈ l, 48 ≤ c.toNat ∧ c.toNat ≤ 57) : allDigits l = true := by
  unfold allDigits
  simp only [Bool.and_eq_true, decide_eq_true_eq, List.all_eq_true]
  refine ⟨hne, fun c hc => ?_⟩
  have := h c hc
  omega

theorem pyIntParse_digits (l : List Char) (hne : l ≠ [])
    (h : ∀ c ∈ l, 48 ≤ c.toNat ∧ c.toNat ≤ 57) :
    pyIntParse l = some ((digitsVal l : ℤ)) := by
  unfold pyIntParse
  rw [pyStrip_of_digits l h]
  cases l with
  | nil => exact absurd rfl hne
  | cons c cs =>
    have hc := h c (List.mem_cons_self _ _)
    have h1 : ¬ c = '+' := by intro e; rw [e] at hc; revert hc; decide
    have h2 : ¬ c = '-' := by intro e; rw [e] at hc; revert hc; decide
    simp only [pyIntParseBody]
    rw [if_neg h1, if_neg h2, if_pos (allDigits_of _ (by simp) h)]

theorem digitsVal_replicate_zero (j : ℕ) (l : List Char) :
    digitsVal (List.replicate j '0' ++ l) = digitsVal l := by
  induction j with
  | zero => rfl
  | succ k ih =>
    rw [List.replicate_succ, List.cons_append]
    unfold digitsVal at ih ⊢
    simpa using ih

/-! ## Parsing back a generated registration number (C6/C7) -/

theorem splitOnChar_of_not_mem (sep : Char) :
    ∀ (l : List Char), sep ∉ l → splitOnChar sep l = [l] := by
  intro l
  induction l with
  | nil => intro _; rfl
  | cons c cs ih =>
    intro h
    have hc : ¬ c = sep := fun e => h (e ▸ List.mem_cons_self _ _)
    unfold splitOnChar
    rw [if_neg hc, ih (fun hm => h (List.mem_cons_of_mem _ hm))]

theorem splitOnChar_append (sep : Char) :
    ∀ (a b : List Char), sep ∉ a →
      splitOnChar sep (a ++ sep :: b) = a :: splitOnChar sep b := by
  intro a
  induction a with
  | nil =>
    intro b _
    rw [List.nil_append]
    simp only [splitOnChar]
    simp
  | cons c cs ih =>
    intro b h
    have hc : ¬ c = sep := fun e => h (e ▸ List.mem_cons_self _ _)
    rw [List.cons_append]
    simp only [splitOnChar]
    rw [if_neg hc, ih b (fun hm => h (List.mem_cons_of_mem _ hm))]

/-- The digit string inside a freshly generated number: zero-padding a
nonempty all-digit string keeps it a nonempty all-digit string with the
same value. -/
theorem zfill_digits (w : ℕ) (l : List Char) (hne : l ≠ [])
    (h : ∀ c ∈ l, 48 ≤ c.toNat ∧ c.toNat ≤ 57) :
    zfill w l = List.replicate (w - l.length) '0' ++ l := by
  cases l with
  | nil => exact absurd rfl hne
  | cons c cs =>
    have hc := h c (List.mem_cons_self _ _)
    simp only [zfill]
    rw [if_neg]
    intro hsign
    rcases hsign with e | e <;> rw [e] at hc <;> revert hc <;> decide

theorem replicate_zero_digits (j : ℕ) (l : List Char)
    (h : ∀ c ∈ l, 48 ≤ c.toNat ∧ c.toNat ≤ 57) :
    ∀ c ∈ List.replicate j '0' ++ l, 48 ≤ c.toNat ∧ c.toNat ≤ 57 := by
  intro c hc
  rcases List.mem_append.1 hc with hm | hm
  · have : c = '0' := List.eq_of_mem_replicate hm
    rw [this]; decide
  · exact h c hm

/-- Parsing back the suffix written by `generate_next_reg_no`. -/
theorem parseSuffix_gen (year : ℕ) (rs : List (List Char)) :
    parseSuffix (generate_next_reg_no year rs) = some (maxSuffix year rs + 1)
    ∧ matchesYearCode year (generate_next_reg_no year rs) = true := by
  have hM : (0 : ℤ) ≤ maxSuffix year rs := by
    have hstep : ∀ (L : List (List Char)) (a : ℤ), a ≤ L.foldl suffStep a := by
      intro L
      induction L with
      | nil => intro a; exact le_rfl
      | cons r L ih =>
        intro a
        refine le_trans ?_ (ih (suffStep a r))
        cases hpr : parseSuffix r with
        | none => simp [suffStep, hpr]
        | some k =>
          simp only [suffStep, hpr]
          by_cases hk : k > a
          · rw [if_pos hk]; exact le_of_lt hk
          · rw [if_neg hk]
    exact hstep _ 0
  set M : ℤ := maxSuffix year rs with hMdef
  have hMnat : ((M + 1).toNat : ℤ) = M + 1 := Int.toNat_of_nonneg (by omega)
  have hMne : (M + 1).toNat ≠ 0 := by omega
  have hrepr : intRepr (M + 1) = decRepr (M + 1).toNat := by
    unfold intRepr
    rw [if_neg (by omega)]
  have hdig : ∀ c ∈ decRepr (M + 1).toNat, 48 ≤ c.toNat ∧ c.toNat ≤ 57 :=
    decRepr_digits _
  have hz : zfill 4 (intRepr (M + 1))
      = List.replicate (4 - (decRepr (M + 1).toNat).length) '0'
          ++ decRepr (M + 1).toNat := by
    rw [hrepr]
    exact zfill_digits _ _ (decRepr_ne_nil _) hdig
  set S : List Char :=
    List.replicate (4 - (decRepr (M + 1).toNat).length) '0'
      ++ decRepr (M + 1).toNat with hSdef
  have hSdig : ∀ c ∈ S, 48 ≤ c.toNat ∧ c.toNat ≤ 57 :=
    replicate_zero_digits _ _ hdig
  have hSne : S ≠ [] := by
    intro e
    exact decRepr_ne_nil (M + 1).toNat (List.append_eq_nil.1 e).2
  have hSval : digitsVal S = (M + 1).toNat := by
    rw [hSdef, digitsVal_replicate_zero, digitsVal_decRepr]
  have hyd : ∀ c ∈ decRepr year, 48 ≤ c.toNat ∧ c.toNat ≤ 57 :=
    decRepr_digits year
  have hynot : '-' ∉ decRepr year := by
    intro hm
    have := hyd '-' hm
    revert this
    decide
  have hSnot : '-' ∉ S := by
    intro hm
    have := hSdig '-' hm
    revert this
    decide
  have hshape : generate_next_reg_no year rs
      = decRepr year ++ '-' :: (orgCode ++ '-' :: S) := by
    unfold generate_next_reg_no regHead
    rw [hz]
    simp [List.append_assoc]
  constructor
  · unfold parseSuffix
    rw [hshape, splitOnChar_append '-' (decRepr year) _ hynot,
      splitOnChar_append '-' orgCode S (by decide),
      splitOnChar_of_not_mem '-' S hSnot]
    show pyIntParse S = some (M + 1)
    rw [pyIntParse_digits S hSne hSdig, hSval, hMnat]
  · unfold matchesYearCode
    have : generate_next_reg_no year rs = regHead year ++ zfill 4 (intRepr (M + 1)) := rfl
    rw [this, List.take_left]
    simp

/-- Appending the freshly generated number bumps the running maximum by
exactly one. -/
theorem maxSuffix_snoc (year : ℕ) (rs : List (List Char)) :
    maxSuffix year (rs ++ [generate_next_reg_no year rs])
      = maxSuffix year rs + 1 := by
  obtain ⟨hparse, hmatch⟩ := parseSuffix_gen year rs
  have hsplit : maxSuffix year (rs ++ [generate_next_reg_no year rs])
      = List.foldl suffStep (maxSuffix year rs)
          (List.filter (matchesYearCode year) [generate_next_reg_no year rs]) := by
    unfold maxSuffix
    rw [List.filter_append, List.foldl_append]
  rw [hsplit, List.filter_cons_of_pos hmatch]
  simp only [List.filter_nil, List.foldl_cons, List.foldl_nil]
  simp only [suffStep, hparse]
  rw [if_pos (by omega)]

theorem maxSuffix_regSeq (year : ℕ) (start : List (List Char)) :
    ∀ n : ℕ, maxSuffix year (regSeq year start n) = maxSuffix year start + n := by
  intro n
  induction n with
  | zero => simp [regSeq]
  | succ k ih =>
    show maxSuffix year (regSeq year start k ++ [_]) = _
    rw [maxSuffix_snoc, ih]
    omega

/-- The suffix of the `(n+1)`-st generated number. -/
theorem parseSuffix_genNo (year : ℕ) (start : List (List Char)) (n : ℕ) :
    parseSuffix (genNo year start n) = some (maxSuffix year start + n + 1) := by
  unfold genNo
  rw [(parseSuffix_gen year (regSeq year start n)).1, maxSuffix_regSeq]

/-- C7: within one year, successive registrations generate numbers with
strictly increasing numeric suffixes, hence pairwise distinct numbers. -/
theorem reg_no_strictly_increasing :
    ∀ (year : ℕ) (start : List (List Char)) (m n : ℕ), m < n →
      ∃ a b : ℤ, parseSuffix (genNo year start m) = some a
        ∧ parseSuffix (genNo year start n) = some b
        ∧ a < b
        ∧ genNo year start m ≠ genNo year start n := by
  intro year start m n hmn
  refine ⟨maxSuffix year start + m + 1, maxSuffix year start + n + 1,
    parseSuffix_genNo year start m, parseSuffix_genNo year start n,
    by omega, ?_⟩
  intro he
  have := parseSuffix_genNo year start m
  rw [he, parseSuffix_genNo year start n] at this
  have := Option.some.inj this
  omega

/-- Witness for C7: the first two registrations into an empty table. -/
theorem reg_no_strictly_increasing_witness :
    ∃ a b : ℤ, parseSuffix (genNo 2024 [] 0) = some a
      ∧ parseSuffix (genNo 2024 [] 1) = some b
      ∧ a < b
      ∧ genNo 2024 [] 0 ≠ genNo 2024 [] 1 :=
  reg_no_strictly_increasing 2024 [] 0 1 (by omega)

/-! ## C6: the scan computes the maximum of the parsed suffixes -/

theorem foldr_max_nonneg (l : List ℤ) : 0 ≤ l.foldr max 0 := by
  induction l with
  | nil => exact le_rfl
  | cons x xs ih => exact le_max_of_le_right ih

theorem if_gt_eq_max (a v : ℤ) : (if v > a then v else a) = max a v := by
  rcases le_or_lt v a with h | h
  · rw [if_neg (not_lt.2 h), max_eq_left h]
  · rw [if_pos h, max_eq_right h.le]

theorem foldl_suffStep_eq_max :
    ∀ (L : List (List Char)) (a : ℤ), 0 ≤ a →
      L.foldl suffStep a = max a ((L.filterMap parseSuffix).foldr max 0) := by
  intro L
  induction L with
  | nil =>
    intro a ha
    simp [max_eq_left ha]
  | cons r L ih =>
    intro a ha
    rw [List.foldl_cons, List.filterMap_cons]
    cases hpr : parseSuffix r with
    | none =>
      have hstep : suffStep a r = a := by simp [suffStep, hpr]
      rw [hstep]
      exact ih a ha
    | some v =>
      have hstep : suffStep a r = max a v := by
        simp only [suffStep, hpr]
        exact if_gt_eq_max a v
      rw [hstep, List.foldr_cons,
        ih (max a v) (le_max_of_le_left ha), ← max_assoc]

/-- C6: the next registration number is obtained by scanning the stored
numbers that match the current year and the fixed code, parsing each
suffix while skipping malformed ones (never crashing — parsing is the
total function `parseSuffix`), taking the maximum (0 when none parse),
adding one and zero-padding to four digits; with a concrete scan over a
malformed entry. -/
theorem next_reg_no_spec :
    (∀ (year : ℕ) (regNos : List (List Char)),
      maxSuffix year regNos = maxParsedSpec year regNos
      ∧ generate_next_reg_no year regNos
          = regHead year ++ zfill 4 (intRepr (maxParsedSpec year regNos + 1)))
    ∧ parseSuffix "2024-XYZ-00ab".data = none
    ∧ generate_next_reg_no 2024
        ["2024-XYZ-00ab".data, "2024-XYZ-0007".data, "2023-XYZ-0100".data]
        = "2024-XYZ-0008".data := by
  have hmain : ∀ (year : ℕ) (regNos : List (List Char)),
      maxSuffix year regNos = maxParsedSpec year regNos := by
    intro year regNos
    unfold maxSuffix maxParsedSpec
    rw [foldl_suffStep_eq_max _ 0 le_rfl, max_eq_right (foldr_max_nonneg _)]
  refine ⟨fun year regNos => ⟨hmain year regNos, ?_⟩, by decide, by decide⟩
  unfold generate_next_reg_no
  rw [hmain year regNos]

/-! ## C8: recognition frame conditions and counter monotonicity -/

theorem rollover_reg_no (t : List Char) (u : UserRec) :
    (rollover t u).reg_no = u.reg_no := by
  unfold rollover
  split <;> rfl

theorem rollover_count (t : List Char) (u : UserRec) :
    (rollover t u).attendance_count = u.attendance_count := by
  unfold rollover
  split <;> rfl

/-- The register operation either leaves the store unchanged (an error)
or appends
one record. -/
theorem register_store (y : ℕ) (n d g f : List Char) (s : Store) :
    (register y n d g f s).2 = s
    ∨ ∃ u : UserRec, (register y n d g f s).2 = s ++ [u] := by
  unfold register
  dsimp only
  split
  · exact Or.inl rfl
  · split
    · exact Or.inl rfl
    · split
      · exact Or.inl rfl
      · split
        · exact Or.inl rfl
        · exact Or.inr ⟨_, rfl⟩

/-- The status check either leaves the store unchanged or replaces the
first email match by a record with the same `reg_no` and
`attendance_count`. -/
theorem check_status_store (y m : ℕ) (e : List Char) (s : Store) :
    (check_status y m e s).2 = s
    ∨ ∃ (u v : UserRec),
        s.find? (fun w => decide (lowerL w.email = lowerL (pyStrip e))) = some u
        ∧ v.reg_no = u.reg_no
        ∧ v.attendance_count = u.attendance_count
        ∧ v.leaves_taken = (rollover (monthTag y m) u).leaves_taken
        ∧ (check_status y m e s).2
            = updateFirst (fun w => decide (lowerL w.email = lowerL (pyStrip e)))
                (fun _ => v) s := by
  by_cases hne : lowerL (pyStrip e) = []
  · left
    unfold check_status
    rw [if_pos hne]
  · cases hfind : s.find? (fun w => decide (lowerL w.email = lowerL (pyStrip e))) with
    | none =>
      left
      unfold check_status
      rw [if_neg hne, hfind]
    | some u =>
      right
      rw [check_status_found y m e s u hne hfind]
      exact ⟨u,
        { rollover (monthTag y m) u with
          messages := joinBar (statusMessages
            (rollover (monthTag y m) u).leaves_taken
            (specPercent (get_working_days_in_month y m)
              (rollover (monthTag y m) u).leaves_taken)) },
        rfl, rollover_reg_no _ u, rollover_count _ u, rfl, rfl⟩

/-- The delete operation either leaves the store unchanged or removes
the first
record with the given number. -/
theorem deleteUser_store (r : List Char) (s : Store) :
    (deleteUser r s).2 = s
    ∨ (deleteUser r s).2 = deleteFirst (fun u => decide (u.reg_no = r)) s := by
  unfold deleteUser
  cases s.find? (fun u => decide (u.reg_no = r)) with
  | none => exact Or.inl rfl
  | some u => exact Or.inr rfl

theorem countOf_append (r : List Char) :
    ∀ (s : Store) (n : ℕ) (l : Store),
      countOf r s = some n → countOf r (s ++ l) = some n := by
  intro s
  induction s with
  | nil => intro n l h; simp [countOf] at h
  | cons u us ih =>
    intro n l h
    rw [List.cons_append]
    simp only [countOf] at h ⊢
    by_cases hr : u.reg_no = r
    · rw [if_pos hr] at h ⊢; exact h
    · rw [if_neg hr] at h ⊢; exact ih n l h

theorem countOf_eq_none (r : List Char) :
    ∀ s : Store, r ∉ s.map UserRec.reg_no → countOf r s = none := by
  intro s
  induction s with
  | nil => intro _; rfl
  | cons u us ih =>
    intro h
    unfold countOf
    rw [if_neg (fun e => h (by rw [← e]; exact List.mem_cons_self _ _))]
    exact ih (fun hm => h (List.mem_cons_of_mem _ hm))

theorem countOf_set_inc (r : List Char) :
    ∀ (s : Store) (i : ℕ) (d : UserRec) (n : ℕ),
      countOf r s = some n →
      countOf r (s.set i (incCount (s.getD i d))) = some n
      ∨ countOf r (s.set i (incCount (s.getD i d))) = some (n + 1) := by
  intro s
  induction s with
  | nil => intro i d n h; simp [countOf] at h
  | cons u us ih =>
    intro i d n h
    cases i with
    | zero =>
      show countOf r (incCount u :: us) = some n
        ∨ countOf r (incCount u :: us) = some (n + 1)
      simp only [countOf] at h ⊢
      by_cases hr : u.reg_no = r
      · rw [if_pos hr] at h
        rw [if_pos (show (incCount u).reg_no = r from hr)]
        have hn : n = u.attendance_count := (Option.some.inj h).symm
        subst hn
        right
        rfl
      · rw [if_neg hr] at h
        rw [if_neg (show ¬ (incCount u).reg_no = r from hr)]
        exact Or.inl h
    | succ i =>
      show countOf r (u :: us.set i (incCount (us.getD i d))) = some n
        ∨ countOf r (u :: us.set i (incCount (us.getD i d))) = some (n + 1)
      unfold countOf at h ⊢
      by_cases hr : u.reg_no = r
      · rw [if_pos hr] at h ⊢
        exact Or.inl h
      · rw [if_neg hr] at h ⊢
        exact ih i d n h

theorem countOf_updateFirst_const (r : List Char) (p : UserRec → Bool)
    (v : UserRec) :
    ∀ (s : Store) (u : UserRec), s.find? p = some u →
      v.reg_no = u.reg_no → v.attendance_count = u.attendance_count →
      countOf r (updateFirst p (fun _ => v) s) = countOf r s := by
  intro s
  induction s with
  | nil => intro u h; simp at h
  | cons w ws ih =>
    intro u h hreg hcnt
    by_cases hp : p w
    · have huw : u = w := by
        rw [List.find?_cons_of_pos _ hp] at h
        exact (Option.some.inj h).symm
      subst huw
      unfold updateFirst
      rw [if_pos hp]
      unfold countOf
      rw [hreg]
      by_cases hr : u.reg_no = r
      · rw [if_pos hr, if_pos hr, hcnt]
      · rw [if_neg hr, if_neg hr]
    · rw [List.find?_cons_of_neg _ hp] at h
      unfold updateFirst
      rw [if_neg hp]
      unfold countOf
      by_cases hr : w.reg_no = r
      · rw [if_pos hr, if_pos hr]
      · rw [if_neg hr, if_neg hr]
        exact ih u h hreg hcnt

theorem countOf_deleteFirst (r r0 : List Char) :
    ∀ (s : Store) (n n' : ℕ),
      (s.map UserRec.reg_no).Nodup →
      countOf r s = some n →
      countOf r (deleteFirst (fun u => decide (u.reg_no = r0)) s) = some n' →
      n ≤ n' := by
  intro s
  induction s with
  | nil => intro n n' _ h; simp [countOf] at h
  | cons u us ih =>
    intro n n' hnd h h'
    rw [List.map_cons, List.nodup_cons] at hnd
    unfold deleteFirst at h'
    by_cases h0 : u.reg_no = r0
    · rw [if_pos (by simpa using h0)] at h'
      unfold countOf at h
      by_cases hr : u.reg_no = r
      · rw [if_pos hr] at h
        have : countOf r us = none := by
          apply countOf_eq_none
          rw [← hr]
          exact hnd.1
        rw [this] at h'
        simp at h'
      · rw [if_neg hr] at h
        rw [h] at h'
        have := Option.some.inj h'
        omega
    · rw [if_neg (by simpa using h0)] at h'
      unfold countOf at h h'
      by_cases hr : u.reg_no = r
      · rw [if_pos hr] at h h'
        rw [← Option.some.inj h, ← Option.some.inj h']
      · rw [if_neg hr] at h h'
        exact ih n n' hnd.2 h h'

/-- C8: each recognition event has exactly two outcomes — with no users
(or a failed coin) nothing is mutated and failure is reported; when
recognised, exactly one stored record changes, and only by incrementing
its `attendance_count` by one.  Across all four endpoints, the counter of
a record (tracked by its unique registration number) never decreases. -/
theorem recognition_two_outcomes :
    (∀ (coin : Bool) (pick : ℕ),
      recognize coin pick [] = (⟨false, "No users registered yet.".data⟩, []))
    ∧ (∀ (pick : ℕ) (s : Store),
      (recognize false pick s).1.recognized = false
      ∧ (recognize false pick s).2 = s)
    ∧ (∀ (pick : ℕ) (s : Store), s ≠ [] →
      (recognize true pick s).1.recognized = true
      ∧ (recognize true pick s).2.length = s.length
      ∧ ∃ i, i < s.length ∧
          ∀ (j : ℕ) (hj : j < s.length)
            (hj' : j < (recognize true pick s).2.length),
            (recognize true pick s).2.get ⟨j, hj'⟩
              = if j = i then incCount (s.get ⟨j, hj⟩) else s.get ⟨j, hj⟩)
    ∧ (∀ (op : Op) (s : Store) (r : List Char) (n n' : ℕ),
      (s.map UserRec.reg_no).Nodup →
      countOf r s = some n → countOf r (applyOp op s) = some n' → n ≤ n') := by
  refine ⟨fun coin pick => rfl, fun pick s => ?_, ?_, ?_⟩
  · cases s <;> exact ⟨rfl, rfl⟩
  · intro pick s hs
    cases s with
    | nil => exact absurd rfl hs
    | cons u0 us =>
      have hlen : 0 < (u0 :: us).length := by simp
      have hi : pick % (u0 :: us).length < (u0 :: us).length :=
        Nat.mod_lt _ hlen
      refine ⟨rfl, List.length_set _ _ _, pick % (u0 :: us).length, hi, ?_⟩
      intro j hj hj'
      have hgd : (u0 :: us).getD (pick % (u0 :: us).length) u0
          = (u0 :: us).get ⟨pick % (u0 :: us).length, hi⟩ := by
        rw [List.getD_eq_getElem _ _ hi, List.get_eq_getElem]
      show ((u0 :: us).set (pick % (u0 :: us).length)
          (incCount ((u0 :: us).getD (pick % (u0 :: us).length) u0))).get
            ⟨j, hj'⟩ = _
      by_cases hji : j = pick % (u0 :: us).length
      · subst hji
        rw [if_pos rfl]
        rw [List.get_eq_getElem, List.get_eq_getElem, List.getElem_set,
          if_pos rfl, List.getD_eq_getElem _ _ hi]
      · rw [if_neg hji]
        have hij : ¬ pick % (u0 :: us).length = j := fun e => hji e.symm
        rw [List.get_eq_getElem, List.get_eq_getElem, List.getElem_set,
          if_neg hij]
  · intro op s r n n' hnd h h'
    cases op with
    | register y nm d g f =>
      rcases register_store y nm d g f s with he | ⟨u, he⟩
      · simp only [applyOp] at h'
        rw [he, h] at h'
        have := Option.some.inj h'
        omega
      · simp only [applyOp] at h'
        rw [he, countOf_append r s n [u] h] at h'
        have := Option.some.inj h'
        omega
    | recognize coin pick =>
      simp only [applyOp] at h'
      cases s with
      | nil => simp [countOf] at h
      | cons u0 us =>
        cases coin with
        | false =>
          have he : (recognize false pick (u0 :: us)).2 = u0 :: us := rfl
          rw [he, h] at h'
          have := Option.some.inj h'
          omega
        | true =>
          have he : (recognize true pick (u0 :: us)).2
              = (u0 :: us).set (pick % (u0 :: us).length)
                  (incCount ((u0 :: us).getD (pick % (u0 :: us).length) u0)) :=
            rfl
          rw [he] at h'
          rcases countOf_set_inc r (u0 :: us) (pick % (u0 :: us).length) u0 n h
            with h2 | h2 <;> rw [h2] at h' <;>
            have := Option.some.inj h' <;> omega
    | status y m e =>
      rcases check_status_store y m e s with he | ⟨u, v, hf, hreg, hcnt, _, he⟩
      · simp only [applyOp] at h'
        rw [he, h] at h'
        have := Option.some.inj h'
        omega
      · simp only [applyOp] at h'
        rw [he, countOf_updateFirst_const r _ v s u hf hreg hcnt, h] at h'
        have := Option.some.inj h'
        omega
    | delete rr =>
      rcases deleteUser_store rr s with he | he
      · simp only [applyOp] at h'
        rw [he, h] at h'
        have := Option.some.inj h'
        omega
      · simp only [applyOp] at h'
        rw [he] at h'
        exact countOf_deleteFirst r rr s n n' hnd h h'

/-- Witness for C8 at a concrete store: a recognised event increments
`witUser`'s counter from 4 to 5, and the monotonicity conclusion holds
with its hypotheses discharged on that store. -/
theorem recognition_two_outcomes_witness :
    (recognize true 0 [witUser]).1.recognized = true ∧ (4 : ℕ) ≤ 5 :=
  ⟨(recognition_two_outcomes.2.2.1 0 [witUser] (by decide)).1,
   recognition_two_outcomes.2.2.2 (Op.recognize true 0) [witUser]
     witUser.reg_no 4 5 (by decide) (by decide) (by decide)⟩

/-! ## C10: no operation ever makes `leaves_taken` positive -/

theorem register_members (y : ℕ) (nm d g f : List Char) (s : Store) :
    ∀ u ∈ (register y nm d g f s).2, u ∈ s ∨ u.leaves_taken = 0 := by
  intro u hu
  rcases register_store y nm d g f s with he | ⟨v, he⟩
  · rw [he] at hu; exact Or.inl hu
  · rw [he] at hu
    rcases List.mem_append.1 hu with hm | hm
    · exact Or.inl hm
    · right
      have huv : u = v := by simpa using hm
      subst huv
      -- every record appended by `register` is built with `leaves_taken := 0`
      revert he
      unfold register
      dsimp only
      split
      · intro he; simp at he
      · split
        · intro he; simp at he
        · split
          · intro he; simp at he
          · split
            · intro he; simp at he
            · intro he
              have := List.append_cancel_left he
              have := (List.cons.injEq _ _ _ _ ▸ this).1
              rw [← this]

theorem mem_updateFirst (p : UserRec → Bool) (f : UserRec → UserRec) :
    ∀ (s : Store) (w : UserRec), w ∈ updateFirst p f s →
      w ∈ s ∨ ∃ x ∈ s, w = f x := by
  intro s
  induction s with
  | nil => intro w hw; exact Or.inl hw
  | cons u us ih =>
    intro w hw
    unfold updateFirst at hw
    by_cases hp : p u
    · rw [if_pos hp] at hw
      rcases List.mem_cons.1 hw with he | hm
      · exact Or.inr ⟨u, List.mem_cons_self _ _, he⟩
      · exact Or.inl (List.mem_cons_of_mem _ hm)
    · rw [if_neg hp] at hw
      rcases List.mem_cons.1 hw with he | hm
      · exact Or.inl (he ▸ List.mem_cons_self _ _)
      · rcases ih w hm with h | ⟨x, hx, hfx⟩
        · exact Or.inl (List.mem_cons_of_mem _ h)
        · exact Or.inr ⟨x, List.mem_cons_of_mem _ hx, hfx⟩

theorem mem_deleteFirst (p : UserRec → Bool) :
    ∀ (s : Store) (w : UserRec), w ∈ deleteFirst p s → w ∈ s := by
  intro s
  induction s with
  | nil => intro w hw; exact hw
  | cons u us ih =>
    intro w hw
    unfold deleteFirst at hw
    by_cases hp : p u
    · rw [if_pos hp] at hw
      exact List.mem_cons_of_mem _ hw
    · rw [if_neg hp] at hw
      rcases List.mem_cons.1 hw with he | hm
      · exact he ▸ List.mem_cons_self _ _
      · exact List.mem_cons_of_mem _ (ih w hm)

theorem rollover_leaves_zero (t : List Char) (u : UserRec)
    (h : u.leaves_taken = 0) : (rollover t u).leaves_taken = 0 := by
  unfold rollover
  split
  · exact h
  · rfl

/-- Every operation preserves "all leave counters are zero". -/
theorem applyOp_leaves_zero (op : Op) (s : Store)
    (hs : ∀ u ∈ s, u.leaves_taken = 0) :
    ∀ u ∈ applyOp op s, u.leaves_taken = 0 := by
  intro u hu
  cases op with
  | register y nm d g f =>
    simp only [applyOp] at hu
    rcases register_members y nm d g f s u hu with hm | hz
    · exact hs u hm
    · exact hz
  | recognize coin pick =>
    simp only [applyOp] at hu
    cases s with
    | nil => simp [recognize] at hu
    | cons u0 us =>
      cases coin with
      | false => exact hs u hu
      | true =>
        have he : (recognize true pick (u0 :: us)).2
            = (u0 :: us).set (pick % (u0 :: us).length)
                (incCount ((u0 :: us).getD (pick % (u0 :: us).length) u0)) :=
          rfl
        rw [he] at hu
        rcases List.mem_or_eq_of_mem_set hu with hm | heq
        · exact hs u hm
        · rw [heq]
          show ((u0 :: us).getD (pick % (u0 :: us).length) u0).leaves_taken = 0
          by_cases hi : pick % (u0 :: us).length < (u0 :: us).length
          · rw [List.getD_eq_getElem _ _ hi]
            exact hs _ (List.getElem_mem hi)
          · rw [List.getD_eq_default _ _ (by omega)]
            exact hs u0 (List.mem_cons_self _ _)
  | status y m e =>
    simp only [applyOp] at hu
    rcases check_status_store y m e s with he | ⟨uf, v, hf, _, _, hlv, he⟩
    · rw [he] at hu
      exact hs u hu
    · rw [he] at hu
      rcases mem_updateFirst _ _ s u hu with hm | ⟨x, _, hfx⟩
      · exact hs u hm
      · rw [hfx]
        show v.leaves_taken = 0
        rw [hlv]
        exact rollover_leaves_zero _ _ (hs uf (List.mem_of_find?_eq_some hf))
  | delete r =>
    simp only [applyOp] at hu
    rcases deleteUser_store r s with he | he
    · rw [he] at hu
      exact hs u hu
    · rw [he] at hu
      exact hs u (mem_deleteFirst _ s u hu)

theorem runOps_leaves_zero :
    ∀ (ops : List Op) (s : Store), (∀ u ∈ s, u.leaves_taken = 0) →
      ∀ u ∈ ops.foldl (fun t op => applyOp op t) s, u.leaves_taken = 0 := by
  intro ops
  induction ops with
  | nil => intro s hs; exact hs
  | cons op ops ih =>
    intro s hs
    exact ih (applyOp op s) (applyOp_leaves_zero op s hs)

theorem specPercent_zero_leaves (wd : ℕ) : specPercent wd 0 = 100 := by
  unfold specPercent
  by_cases h : 0 < wd
  · rw [if_pos h]
    have hw : (wd : ℚ) ≠ 0 := Nat.cast_ne_zero.2 (by omega)
    rw [Nat.cast_zero, sub_zero, div_self hw, one_mul]
    exact max_eq_right (by norm_num)
  · rw [if_neg h]

theorem pyRound1_100 : pyRound1 100 = 100 := by
  norm_num [pyRound1, roundHalfEven]

theorem statusMessages_zero : statusMessages 0 100 = [msgCongrats] := by
  have h1 : ¬ (2 < (0 : ℕ)) := by omega
  have h2 : ¬ ((100 : ℚ) < 90) := by norm_num
  unfold statusMessages
  rw [if_neg h1, if_neg h2, if_pos rfl]
  simp

/-- C10 (implicit): no public operation ever sets `leaves_taken`
positive, so every reachable store has all leave counters at zero and
every successful status check reports 100% attendance with only the
congratulatory message — the leave alert and the below-90% warning are
unreachable. -/
theorem leaves_always_zero :
    (∀ (ops : List Op), ∀ u ∈ runOps ops, u.leaves_taken = 0)
    ∧ (∀ (ops : List Op) (y m : ℕ) (e : List Char)
        (resp : StatusResponse) (s' : Store),
        check_status y m e (runOps ops) = (Except.ok resp, s') →
        resp.leaves_taken = 0
        ∧ resp.attendance_percent = 100
        ∧ resp.messages = [msgCongrats]) := by
  have hinv : ∀ (ops : List Op), ∀ u ∈ runOps ops, u.leaves_taken = 0 :=
    fun ops => runOps_leaves_zero ops [] (by intro u hu; simp at hu)
  refine ⟨hinv, ?_⟩
  intro ops y m e resp s' h
  by_cases hne : lowerL (pyStrip e) = []
  · unfold check_status at h
    rw [if_pos hne] at h
    simp at h
  · cases hfind : (runOps ops).find?
      (fun v => decide (lowerL v.email = lowerL (pyStrip e))) with
    | none =>
      unfold check_status at h
      rw [if_neg hne, hfind] at h
      simp at h
    | some u =>
      rw [check_status_found y m e (runOps ops) u hne hfind] at h
      rw [Prod.mk.injEq] at h
      obtain ⟨h1, h2⟩ := h
      rw [Except.ok.injEq] at h1
      subst h1
      have hu0 : u.leaves_taken = 0 :=
        hinv ops u (List.mem_of_find?_eq_some hfind)
      have hroll : (rollover (monthTag y m) u).leaves_taken = 0 :=
        rollover_leaves_zero _ _ hu0
      refine ⟨hroll, ?_, ?_⟩
      · show pyRound1 (specPercent (get_working_days_in_month y m)
          (rollover (monthTag y m) u).leaves_taken) = 100
        rw [hroll, specPercent_zero_leaves, pyRound1_100]
      · show statusMessages (rollover (monthTag y m) u).leaves_taken
          (specPercent (get_working_days_in_month y m)
            (rollover (monthTag y m) u).leaves_taken) = [msgCongrats]
        rw [hroll, specPercent_zero_leaves, statusMessages_zero]

/-- The one-registration operation sequence used by the C10 witness. -/
def adaOps : List Op :=
  [Op.register 2024 "Ada Lovelace".data "2000-01-05".data "F".data "img".data]

/-- The record that registration creates. -/
def adaUser : UserRec :=
  { reg_no := "2024-XYZ-0001".data, name := "Ada Lovelace".data,
    dob := (2000, 1, 5), gender := "F".data,
    email := "ada.lovelace@company.com".data, attendance_count := 0,
    leaves_taken := 0, last_leave_month := none, messages := [],
    face_image := "img".data }

/-- The response of the subsequent status check. -/
def adaResp : StatusResponse :=
  ⟨adaUser.name, adaUser.attendance_count,
   (rollover (monthTag 2024 2) adaUser).leaves_taken,
   pyRound1 (specPercent (get_working_days_in_month 2024 2)
     (rollover (monthTag 2024 2) adaUser).leaves_taken),
   statusMessages (rollover (monthTag 2024 2) adaUser).leaves_taken
     (specPercent (get_working_days_in_month 2024 2)
       (rollover (monthTag 2024 2) adaUser).leaves_taken)⟩

/-- The store it leaves behind. -/
def adaStore : Store :=
  updateFirst
    (fun v => decide (lowerL v.email
      = lowerL (pyStrip "ada.lovelace@company.com".data)))
    (fun _ => { rollover (monthTag 2024 2) adaUser with
        messages := joinBar (statusMessages
          (rollover (monthTag 2024 2) adaUser).leaves_taken
          (specPercent (get_working_days_in_month 2024 2)
            (rollover (monthTag 2024 2) adaUser).leaves_taken)) }) [adaUser]

/-- Witness for C10: register one user, then run the status check on the
reached store. -/
theorem leaves_always_zero_witness :
    adaUser.leaves_taken = 0
    ∧ adaResp.leaves_taken = 0
    ∧ adaResp.attendance_percent = 100
    ∧ adaResp.messages = [msgCongrats] := by
  have hs : runOps adaOps = [adaUser] := by decide
  have hfind : List.find?
      (fun v => decide (lowerL v.email
        = lowerL (pyStrip "ada.lovelace@company.com".data))) [adaUser]
      = some adaUser := by decide
  have h : check_status 2024 2 "ada.lovelace@company.com".data (runOps adaOps)
      = (Except.ok adaResp, adaStore) := by
    rw [hs]
    exact check_status_found 2024 2 "ada.lovelace@company.com".data [adaUser]
      adaUser (by decide) hfind
  refine ⟨leaves_always_zero.1 adaOps adaUser (by rw [hs]; exact List.mem_cons_self _ _), ?_⟩
  exact leaves_always_zero.2 adaOps 2024 2 "ada.lovelace@company.com".data
    adaResp adaStore h

/-! ## C9: a name that normalises to empty -/

/-- Counterexample to C9 as stated: the name `"123"` normalises to the
empty string, yet `generate_email` returns `''` without raising, and
`/register` succeeds, creating one record whose stored email is empty —
the registration is not rejected. -/
theorem empty_name_registration_counterexample :
    pyWords (normalizeName "123".data) = []
    ∧ generate_email "123".data [] = []
    ∧ (register 2024 "123".data "2000-01-05".data "Male".data "img".data
        []).1.isOk = true
    ∧ (register 2024 "123".data "2000-01-05".data "Male".data "img".data
        []).2.map UserRec.email = [[]] := by decide

/-- C9 as amended: when the supplied name normalises to the empty token
list, `generate_email` returns the empty string (it does not raise), and
registration — when its other validations pass and no stored user already
has the empty email — succeeds and appends a record with an empty email;
it is not rejected. -/
theorem empty_name_email_amended :
    (∀ (name : List Char) (stored : List (List Char)),
      pyWords (normalizeName name) = [] → generate_email name stored = [])
    ∧ (∀ (y : ℕ) (nameIn dobIn genderIn faceIn : List Char) (s : Store),
        pyStrip nameIn ≠ [] → pyStrip dobIn ≠ [] →
        pyStrip genderIn ≠ [] → pyStrip faceIn ≠ [] →
        pyWords (normalizeName (pyStrip nameIn)) = [] →
        (s.find? (fun u => decide (lowerL u.name
          = lowerL (pyStrip nameIn)))).isSome = false →
        parseDate (pyStrip dobIn) ≠ none →
        (s.find? (fun u => decide (lowerL u.email
          = lowerL ([] : List Char)))).isSome = false →
        (register y nameIn dobIn genderIn faceIn s).1.isOk = true
        ∧ ∃ u : UserRec,
            (register y nameIn dobIn genderIn faceIn s).2 = s ++ [u]
            ∧ u.email = []) := by
  have hgen : ∀ (name : List Char) (stored : List (List Char)),
      pyWords (normalizeName name) = [] → generate_email name stored = [] := by
    intro name stored hw
    unfold generate_email
    by_cases hnm : name = []
    · rw [if_pos hnm]
    · rw [if_neg hnm, hw]
  refine ⟨hgen, ?_⟩
  intro y nameIn dobIn genderIn faceIn s h1 h2 h3 h4 hw hfn hpd hfe
  obtain ⟨dob, hdob⟩ : ∃ d, parseDate (pyStrip dobIn) = some d := by
    cases hd : parseDate (pyStrip dobIn) with
    | none => exact absurd hd hpd
    | some d => exact ⟨d, rfl⟩
  have hem : generate_email (pyStrip nameIn) (s.map UserRec.email) = [] :=
    hgen _ _ hw
  have hreg : register y nameIn dobIn genderIn faceIn s
      = (Except.ok ⟨generate_next_reg_no y (s.map UserRec.reg_no), [],
          pyStrip nameIn⟩,
         s ++ [{ reg_no := generate_next_reg_no y (s.map UserRec.reg_no),
                 name := pyStrip nameIn, dob := dob,
                 gender := pyStrip genderIn, email := [],
                 attendance_count := 0, leaves_taken := 0,
                 last_leave_month := none, messages := [],
                 face_image := pyStrip faceIn }]) := by
    unfold register
    dsimp only
    rw [if_neg (by simp [h1, h2, h3, h4])]
    rw [if_neg (by rw [hfn]; simp)]
    rw [hdob]
    dsimp only
    rw [hem]
    rw [if_neg (by rw [hfe]; simp)]
  rw [hreg]
  exact ⟨rfl, _, rfl, rfl⟩

/-- Witness for the amended C9 at the concrete input of the
counterexample. -/
theorem empty_name_email_amended_witness :
    (register 2024 "123".data "2000-01-05".data "Male".data "img".data
      []).1.isOk = true
    ∧ ∃ u : UserRec,
        (register 2024 "123".data "2000-01-05".data "Male".data "img".data
          []).2 = [] ++ [u]
        ∧ u.email = [] :=
  empty_name_email_amended.2 2024 "123".data "2000-01-05".data "Male".data
    "img".data [] (by decide) (by decide) (by decide) (by decide) (by decide)
    (by decide) (by decide) (by decide)

end FaceAtt
